import Mathlib

/-!
Verification of the asynchronous job-execution subsystem of the repository
(`app/jobs/job_manager.py`, `app/models.py`, `app/routes/jobs.py`).

Shallow embedding conventions:
* `datetime.now()` is modelled by a logical clock (`Nat`) carried in the
  manager state; every call site of `now()` reads the clock and advances it,
  so successive readings are strictly increasing.
* Job ids (uuid strings in the source) are modelled as freshly assigned
  naturals (`nextId` counter); uniqueness of uuids becomes the `Nodup`
  invariant.
* Progress percentages in the source are the floats 0.0, 25.0, 50.0, 75.0,
  100.0; they are modelled as the corresponding naturals.
* `self.job_queue` is an `asyncio.Queue()` — a plain FIFO queue.  It is
  modelled as a list of `(priority, id)` tickets where `put_nowait` appends
  at the tail and `get` removes the head.
* Result payloads (Python dicts) are modelled as association lists
  `List (String × String)`.
* Interleaving: the manager runs on one cooperative asyncio scheduler
  (route handlers are `async def`, so `create_job` / `cancel_job` /
  `list_jobs` run on the same event loop as the workers); control can only
  switch at `await` points.  The step relation below therefore treats each
  maximal await-free code region as one atomic step; in particular the
  worker's PENDING re-validation (line 116) and the RUNNING assignment
  (lines 135-139) belong to a single step, since no `await` separates them.
-/

namespace JobSys

/-- JobStatus enum, models.py lines 138-144. -/
inductive JobStatus where
  | pending
  | running
  | completed
  | failed
  | cancelled
deriving DecidableEq, Repr

/-- JobType enum, models.py lines 147-151. -/
inductive JobType where
  | food_search
  | restaurant_search
  | health_check
deriving DecidableEq, Repr

/-- JobProgress, models.py lines 154-159, with its field defaults. -/
structure JobProgress where
  current_step : Nat := 0
  total_steps : Nat := 1
  step_description : Option String := none
  progress_percentage : Nat := 0
deriving DecidableEq, Repr

/-- Job, models.py lines 173-196, with its field defaults.  `job_data` is
omitted: it is an opaque payload consumed only by the (external) executor
and never read by the job-lifecycle code under verification. -/
structure Job where
  id : Nat
  status : JobStatus := .pending
  job_type : JobType
  created_at : Nat
  started_at : Option Nat := none
  completed_at : Option Nat := none
  progress : JobProgress := {}
  result : Option (List (String × String)) := none
  error_message : Option String := none
  priority : Nat := 1
  timeout_seconds : Nat := 300
  retry_count : Nat := 0
  max_retries : Nat := 3
deriving DecidableEq, Repr

/-- Progress mutation performed when a worker marks a job RUNNING,
job_manager.py lines 138-139: only `step_description` and
`progress_percentage` of the existing progress record are assigned. -/
def markRunningProgress (p : JobProgress) : JobProgress :=
  { p with step_description := some ("Initializing...")
           progress_percentage := 0 }

/-- Marking a job RUNNING, job_manager.py lines 135-139. -/
def markRunningJob (j : Job) (t : Nat) : Job :=
  { j with status := .running
           started_at := some t
           progress := markRunningProgress j.progress }

/-- Success epilogue of `_execute_job`, job_manager.py lines 150-155. -/
def completeJobFields (j : Job) (t : Nat) (res : List (String × String)) : Job :=
  { j with status := .completed
           completed_at := some t
           result := some res
           progress := { j.progress with
                         progress_percentage := 100
                         step_description := some ("Completed") } }

/-- Failure epilogue of `_execute_job`, job_manager.py lines 163-177:
mark FAILED with timestamp and error, update the step description, then
(lines 170-176) if the retry budget remains, increment `retry_count`,
reset status to PENDING, clear `started_at`, `completed_at`,
`error_message`, and replace `progress` by a fresh default record. -/
def failJobFields (j : Job) (t : Nat) (err : String) : Job :=
  let j1 : Job :=
    { j with status := .failed
             completed_at := some t
             error_message := some err
             progress := { j.progress with
                           step_description := some ("Failed: " ++ err) } }
  if j1.retry_count < j1.max_retries then
    { j1 with retry_count := j1.retry_count + 1
              status := .pending
              started_at := none
              completed_at := none
              error_message := none
              progress := {} }
  else
    j1

/-- The re-enqueue condition of job_manager.py line 170, evaluated on the
pre-failure job record. -/
def failRequeues (j : Job) : Bool := j.retry_count < j.max_retries

/-- Result payload of `_execute_health_check`, job_manager.py lines 236-240. -/
def healthCheckResult (t : Nat) : List (String × String) :=
  [("status", "healthy"),
   ("timestamp", toString t),
   ("message", "Browser Use system is operational")]

/-- Executor dispatch of `_execute_job`, job_manager.py lines 141-147:
a food search delegates to the opaque browser agent (its outcome is the
`agent` parameter), a health check always returns its fixed payload, and
any other job type raises `ValueError` with an unknown-job-type message. -/
def dispatchOutcome (agent : Except String (List (String × String)))
    (jt : JobType) (t : Nat) : Except String (List (String × String)) :=
  match jt with
  | .food_search => agent
  | .health_check => .ok (healthCheckResult t)
  | .restaurant_search => .error ("Unknown job type: restaurant_search")

/-- One full execution attempt on a job record (`_execute_job`,
job_manager.py lines 128-180): mark RUNNING, run the dispatched executor,
then apply the success or failure epilogue. -/
def runAttempt (agent : Except String (List (String × String)))
    (j : Job) (t : Nat) : Job :=
  let j1 := markRunningJob j t
  match dispatchOutcome agent j.job_type t with
  | .ok res => completeJobFields j1 (t + 1) res
  | .error e => failJobFields j1 (t + 1) e

/-- State of the `JobManager` (job_manager.py lines 24-30): the job store
(`self.jobs`, a dict keyed by unique ids, modelled as a list of jobs with
`Nodup` ids), the FIFO ticket queue (`self.job_queue`), the fresh-id
counter standing for uuid generation, and the logical clock standing for
`datetime.now()`. -/
structure ManagerState where
  jobs : List Job := []
  queue : List (Nat × Nat) := []
  nextId : Nat := 0
  clock : Nat := 0
deriving DecidableEq, Repr

/-- The `get_job` lookup (job_manager.py lines 69-72), `self.jobs.get(job_id)`. -/
def findJob (s : ManagerState) (id : Nat) : Option Job :=
  s.jobs.find? (fun j => j.id == id)

/-- In-place mutation of the stored job with the given id (the Python code
mutates the `Job` object held in the dict under the manager lock). -/
def updateJob (jobs : List Job) (id : Nat) (f : Job → Job) : List Job :=
  jobs.map (fun j => if j.id == id then f j else j)

/-- The `create_job` operation (job_manager.py lines 51-67): build a Job
with the models.py defaults (PENDING, fresh id, `created_at = now()`),
store it, and append the `(priority, id)` ticket to the FIFO queue. -/
def createJob (s : ManagerState) (jt : JobType) (priority timeout : Nat) :
    Job × ManagerState :=
  let j : Job := { id := s.nextId, job_type := jt, created_at := s.clock,
                   priority := priority, timeout_seconds := timeout }
  (j, { s with jobs := s.jobs ++ [j]
               queue := s.queue ++ [(priority, j.id)]
               nextId := s.nextId + 1
               clock := s.clock + 1 })

/-- The `cancel_job` operation (job_manager.py lines 87-96): succeeds only
when the job exists and is PENDING, in which case it becomes CANCELLED
with `completed_at = now()`; otherwise `False` is returned and nothing is
mutated. -/
def cancelJob (s : ManagerState) (id : Nat) : Bool × ManagerState :=
  match findJob s id with
  | some j =>
    if j.status = .pending then
      (true,
       { s with jobs := updateJob s.jobs id
                  (fun x => { x with status := .cancelled
                                     completed_at := some s.clock })
                clock := s.clock + 1 })
    else (false, s)
  | none => (false, s)

/-- Outcome type of the DELETE route handler (routes/jobs.py lines 177-197). -/
inductive CancelOutcome where
  | ok
  | notFound
  | notCancellable (st : JobStatus)
deriving DecidableEq, Repr

/-- The DELETE `/jobs/job_id` handler (routes/jobs.py lines 177-197): on a
failed cancel it re-fetches the job and answers 404 (`notFound`) when the
id is unknown, else 400 (`notCancellable`) carrying the current status. -/
def cancelRoute (s : ManagerState) (id : Nat) : CancelOutcome × ManagerState :=
  let r := cancelJob s id
  if r.1 then (.ok, r.2)
  else
    match findJob r.2 id with
    | none => (.notFound, r.2)
    | some j => (.notCancellable j.status, r.2)

/-- One iteration of the worker loop through the start of execution
(job_manager.py lines 104-120 and 133-139): take the head ticket of the
FIFO queue (an empty queue times out and leaves the state unchanged),
look the job up, drop the ticket when the job is missing or no longer
PENDING (line 116), and otherwise mark the job RUNNING.  No `await`
separates the PENDING re-validation from the RUNNING assignment, so under
the cooperative scheduler this is one atomic step. -/
def workerPoll (s : ManagerState) : ManagerState :=
  match s.queue with
  | [] => s
  | (_, id) :: rest =>
    match findJob s id with
    | none => { s with queue := rest }
    | some j =>
      if j.status = .pending then
        { s with queue := rest
                 jobs := updateJob s.jobs id (fun x => markRunningJob x s.clock)
                 clock := s.clock + 1 }
      else { s with queue := rest }

/-- The success epilogue of `_execute_job` applied to the store
(job_manager.py lines 150-155). -/
def completeStep (s : ManagerState) (id : Nat) (res : List (String × String)) :
    ManagerState :=
  { s with jobs := updateJob s.jobs id (fun x => completeJobFields x s.clock res)
           clock := s.clock + 1 }

/-- The failure epilogue of `_execute_job` applied to the store
(job_manager.py lines 159-180), including the re-enqueue of the
`(priority, id)` ticket (line 179) when the retry budget remains. -/
def failStep (s : ManagerState) (id : Nat) (err : String) : ManagerState :=
  match findJob s id with
  | none => s
  | some j =>
    { s with jobs := updateJob s.jobs id (fun x => failJobFields x s.clock err)
             queue := if failRequeues j then s.queue ++ [(j.priority, j.id)]
                      else s.queue
             clock := s.clock + 1 }

/-- A sanctioned mid-flight progress update by the executing worker
(job_manager.py lines 187-222, 229-231): only the `progress` sub-record of
a RUNNING job is replaced. -/
def setProgress (s : ManagerState) (id : Nat) (p : JobProgress) : ManagerState :=
  { s with jobs := updateJob s.jobs id (fun x => { x with progress := p }) }

/-- Atomic steps of the subsystem: job creation, an external cancel
request, a worker picking up a queued ticket, and the executor finishing
an attempt with success or failure (or updating progress mid-attempt,
which is only possible while the job is RUNNING). -/
inductive Step : ManagerState → ManagerState → Prop where
  | create (s : ManagerState) (jt : JobType) (priority timeout : Nat) :
      Step s (createJob s jt priority timeout).2
  | cancel (s : ManagerState) (id : Nat) : Step s (cancelJob s id).2
  | poll (s : ManagerState) : Step s (workerPoll s)
  | succeed (s : ManagerState) (id : Nat) (res : List (String × String)) (j : Job)
      (hfind : findJob s id = some j) (hrun : j.status = .running) :
      Step s (completeStep s id res)
  | fail (s : ManagerState) (id : Nat) (err : String) (j : Job)
      (hfind : findJob s id = some j) (hrun : j.status = .running) :
      Step s (failStep s id err)
  | progressUpdate (s : ManagerState) (id : Nat) (p : JobProgress) (j : Job)
      (hfind : findJob s id = some j) (hrun : j.status = .running) :
      Step s (setProgress s id p)

/-- The freshly initialised manager: empty store, empty queue. -/
def initState : ManagerState := {}

/-- Zero or more atomic steps. -/
def Steps : ManagerState → ManagerState → Prop :=
  Relation.ReflTransGen Step

/-- States reachable from the freshly initialised manager. -/
def Reachable (s : ManagerState) : Prop :=
  Steps initState s

/-- Progress updates performed by `_execute_food_search`
(job_manager.py lines 187-222), in program order. -/
def foodSearchUpdates : List (JobProgress → JobProgress) :=
  [fun p => { p with current_step := 1
                     total_steps := 4
                     step_description := some ("Creating search request...")
                     progress_percentage := 25 },
   fun p => { p with current_step := 2
                     step_description := some ("Initializing browser agent...")
                     progress_percentage := 50 },
   fun p => { p with current_step := 3
                     step_description := some ("Searching Rappi...")
                     progress_percentage := 75 },
   fun p => { p with current_step := 4
                     step_description := some ("Processing results...")
                     progress_percentage := 100 }]

/-- Progress update performed by `_execute_health_check`
(job_manager.py lines 229-231). -/
def healthCheckUpdates : List (JobProgress → JobProgress) :=
  [fun p => { p with step_description := some ("Running health check...")
                     progress_percentage := 50 }]

/-- Progress updates issued by the dispatched executor, by job type; an
unknown type raises before performing any update. -/
def executorUpdates : JobType → List (JobProgress → JobProgress)
  | .food_search => foodSearchUpdates
  | .health_check => healthCheckUpdates
  | .restaurant_search => []

/-- Final progress assignment of the success epilogue
(job_manager.py lines 154-155). -/
def completionUpdate (p : JobProgress) : JobProgress :=
  { p with progress_percentage := 100
           step_description := some ("Completed") }

/-- The successive progress records produced by folding a list of updates
over an initial record (the record before each update and after the last). -/
def progressStates (p : JobProgress) : List (JobProgress → JobProgress) → List JobProgress
  | [] => [p]
  | u :: us => p :: progressStates (u p) us

/-- All progress records observable over one fully successful execution
attempt: the RUNNING initialisation (lines 138-139), the executor's own
updates, and the completion update; an attempt that fails partway
observes a prefix of this sequence, since the failure handler (line 167)
touches only `step_description`. -/
def attemptProgressTrace (pre : JobProgress) (jt : JobType) : List JobProgress :=
  progressStates (markRunningProgress pre) (executorUpdates jt ++ [completionUpdate])

/-- Comparison used by `list_jobs` (job_manager.py line 83):
`jobs.sort(key=lambda x: x.created_at, reverse=True)`, i.e. newest first. -/
def jobLE (a b : Job) : Bool := decide (b.created_at ≤ a.created_at)

/-- The `list_jobs` operation (job_manager.py lines 74-85): optionally
filter by status, then sort newest-created-first (Python sort is stable,
as is `mergeSort`), then truncate to `limit`. -/
def listJobs (jobs : List Job) (status : Option JobStatus) (limit : Nat) :
    List Job :=
  let js : List Job := match status with
    | some st => jobs.filter (fun j => j.status == st)
    | none => jobs
  (js.mergeSort jobLE).take limit

/-- Payload of the GET `/jobs/stats` route (routes/jobs.py lines 227-234). -/
structure JobStats where
  total_jobs : Nat
  pending : Nat
  running : Nat
  completed : Nat
  failed : Nat
  cancelled : Nat
deriving DecidableEq, Repr

/-- The GET `/jobs/stats` handler (routes/jobs.py lines 218-236): all
counts are computed over `list_jobs(limit=1000)`, not over the store
itself. -/
def getJobStats (jobs : List Job) : JobStats :=
  let all_jobs := listJobs jobs none 1000
  { total_jobs := all_jobs.length
    pending := (all_jobs.filter (fun j => j.status == .pending)).length
    running := (all_jobs.filter (fun j => j.status == .running)).length
    completed := (all_jobs.filter (fun j => j.status == .completed)).length
    failed := (all_jobs.filter (fun j => j.status == .failed)).length
    cancelled := (all_jobs.filter (fun j => j.status == .cancelled)).length }

/-- Repeatedly execute a job whose executor fails on every attempt (the
worker re-dequeues the re-enqueued ticket each time the failure epilogue
resets the job to PENDING).  `errf n` is the error message raised by the
attempt that starts with `retry_count = n`.  Returns the final job record
and the total number of execution attempts.  The fuel argument is a
termination bound; `runFailing` supplies `max_retries - retry_count`,
which is exact because each re-enqueued attempt increments `retry_count`. -/
def runFailingAux (errf : Nat → String) : Nat → Nat → Job → Job × Nat
  | 0, t, j => (failJobFields (markRunningJob j t) (t + 1) (errf j.retry_count), 1)
  | fuel + 1, t, j =>
    let j2 := failJobFields (markRunningJob j t) (t + 1) (errf j.retry_count)
    if j2.status = .pending then
      let r := runFailingAux errf fuel (t + 2) j2
      (r.1, r.2 + 1)
    else (j2, 1)

/-- Run an always-failing job to its final state, counting attempts. -/
def runFailing (errf : Nat → String) (t : Nat) (j : Job) : Job × Nat :=
  runFailingAux errf (j.max_retries - j.retry_count) t j

/-- Timestamp ordering facts maintained for every stored job: stamps never
exceed the clock, and `created_at ≤ started_at ≤ completed_at` whenever
the later stamps are present. -/
def jobTimesOK (clock : Nat) (j : Job) : Prop :=
  j.created_at ≤ clock ∧
  (∀ t, j.started_at = some t → j.created_at ≤ t ∧ t ≤ clock) ∧
  (∀ t, j.completed_at = some t → j.created_at ≤ t ∧ t ≤ clock ∧
    ∀ u, j.started_at = some u → u ≤ t)

/-- Status/field coupling maintained for every stored job: a PENDING job
has no start or completion stamp (creation and the retry reset both clear
them), and a RUNNING job has no completion stamp. -/
def jobStatusOK (j : Job) : Prop :=
  (j.status = .pending → j.started_at = none ∧ j.completed_at = none) ∧
  (j.status = .running → j.completed_at = none)

/-- The store invariant: ids are unique and below the fresh-id counter,
and every job satisfies the timestamp and status/field facts. -/
def Inv (s : ManagerState) : Prop :=
  (∀ j ∈ s.jobs, j.id < s.nextId ∧ jobTimesOK s.clock j ∧ jobStatusOK j) ∧
  (s.jobs.map Job.id).Nodup

/-- How one atomic step can change one stored job: left unchanged,
cancelled while PENDING, picked up (marked RUNNING) while PENDING, or —
while RUNNING — completed, failed (with retry handling) or given a
progress update.  `clock` is the pre-step clock, read for any timestamp
written by the change. -/
inductive JobChange (clock : Nat) : Job → Job → Prop where
  | same (j : Job) : JobChange clock j j
  | cancelled (j : Job) (h : j.status = .pending) :
      JobChange clock j { j with status := .cancelled, completed_at := some clock }
  | started (j : Job) (h : j.status = .pending) :
      JobChange clock j (markRunningJob j clock)
  | completed (j : Job) (res : List (String × String)) (h : j.status = .running) :
      JobChange clock j (completeJobFields j clock res)
  | failed (j : Job) (err : String) (h : j.status = .running) :
      JobChange clock j (failJobFields j clock err)
  | progressed (j : Job) (p : JobProgress) (h : j.status = .running) :
      JobChange clock j { j with progress := p }

/-- Scenario for C1: job A (id 0) created at priority 1, then job B (id 1)
created at priority 9, into an otherwise idle manager. -/
def twoJobState : ManagerState :=
  (createJob (createJob initState JobType.food_search 1 300).2
    JobType.food_search 9 300).2

/-- A store of 1001 PENDING jobs (C9): ids and creation times 0..1000. -/
def manyJobs : List Job :=
  (List.range 1001).map
    (fun i => { id := i, job_type := JobType.health_check, created_at := i })

/-- A concrete PENDING health-check job used by witness instances. -/
def jobW : Job := { id := 0, job_type := JobType.health_check, created_at := 0 }

/-- A concrete manager state holding one COMPLETED and one PENDING job,
used by witness instances.  It is the state reached from `initState` by:
create job 0, create job 1, one worker poll (starts job 0), then the
executor completing job 0. -/
def stateW : ManagerState :=
  completeStep (workerPoll twoJobState) 0 [("ok", "yes")]

/-- The COMPLETED job stored under id 0 in `stateW`. -/
def jobW0 : Job :=
  match findJob stateW 0 with
  | some j => j
  | none => { id := 0, job_type := JobType.food_search, created_at := 0 }

/-- The PENDING job stored under id 1 in `twoJobState`. -/
def jobB : Job :=
  match findJob twoJobState 1 with
  | some j => j
  | none => { id := 1, job_type := JobType.food_search, created_at := 1 }

/-- Trace for C5: one job created into an idle manager. -/
def c5s1 : ManagerState := (createJob initState JobType.food_search 1 300).2

/-- Trace for C5: the worker picks the job up (first attempt starts). -/
def c5s2 : ManagerState := workerPoll c5s1

/-- Trace for C5: the first attempt fails; the retry resets the job to
PENDING, clearing both `started_at` and `completed_at`, and re-enqueues. -/
def c5s3 : ManagerState := failStep c5s2 0 ("boom")

/-- Trace for C5: the worker picks the job up again (second attempt),
assigning `started_at` a second, different value. -/
def c5s4 : ManagerState := workerPoll c5s3

/-- The RUNNING job record in `c5s2`. -/
def jc5 : Job :=
  match findJob c5s2 0 with
  | some j => j
  | none => { id := 0, job_type := JobType.food_search, created_at := 0 }

/-- The retried (PENDING again) job record in `c5s3`. -/
def jc5f : Job :=
  match findJob c5s3 0 with
  | some j => j
  | none => { id := 0, job_type := JobType.food_search, created_at := 0 }

end JobSys

namespace JobSys

theorem find?_updateJob_eq (jobs : List Job) (id : Nat) (f : Job → Job)
    (hf : ∀ j, (f j).id = j.id) :
    (updateJob jobs id f).find? (fun j => j.id == id) =
      (jobs.find? (fun j => j.id == id)).map f := by
  induction jobs with
  | nil => rfl
  | cons a l ih =>
    by_cases ha : a.id = id
    · have e2 : ((if (a.id == id) = true then f a else a).id == id) = true := by
        simp [ha, hf a]
      simp only [updateJob, List.map_cons, List.find?_cons, e2,
                 show (a.id == id) = true by simp [ha]]
      simp [ha, hf a]
    · simp only [updateJob, List.map_cons]
      rw [show (if (a.id == id) = true then f a else a) = a from by simp [ha]]
      simp only [List.find?_cons, show (a.id == id) = false by simp [ha]]
      exact ih

theorem find?_updateJob_ne (jobs : List Job) (id tid : Nat) (f : Job → Job)
    (hf : ∀ j, (f j).id = j.id) (h : id ≠ tid) :
    (updateJob jobs tid f).find? (fun j => j.id == id) =
      jobs.find? (fun j => j.id == id) := by
  induction jobs with
  | nil => rfl
  | cons a l ih =>
    by_cases ha : a.id = id
    · have hat : ¬ a.id = tid := by rw [ha]; exact h
      have e2 : ((if (a.id == tid) = true then f a else a).id == id) = true := by
        simp [ha, h, hat, hf a]
      simp only [updateJob, List.map_cons, List.find?_cons, e2,
                 show (a.id == id) = true by simp [ha]]
      simp [hat, ha, h]
    · have e0 : (if (a.id == tid) = true then f a else a).id = a.id := by
        by_cases ht : a.id = tid <;> simp [ht, hf a]
      simp only [updateJob, List.map_cons, List.find?_cons, e0,
                 show (a.id == id) = false by simp [ha]]
      exact ih

theorem map_id_updateJob (jobs : List Job) (tid : Nat) (f : Job → Job)
    (hf : ∀ j, (f j).id = j.id) :
    (updateJob jobs tid f).map Job.id = jobs.map Job.id := by
  simp only [updateJob, List.map_map]
  apply List.map_congr_left
  intro x hx
  by_cases hxt : x.id = tid <;> simp [Function.comp, hxt, hf x]

theorem find?_eq_of_mem_of_nodup (jobs : List Job) (j : Job) (tid : Nat)
    (hnd : (jobs.map Job.id).Nodup) (hmem : j ∈ jobs) (hid : j.id = tid) :
    jobs.find? (fun x => x.id == tid) = some j := by
  induction jobs with
  | nil => cases hmem
  | cons a l ih =>
    simp only [List.map_cons, List.nodup_cons] at hnd
    rcases List.mem_cons.mp hmem with he | hl
    · subst he
      exact List.find?_cons_of_pos _ (by simp [hid])
    · have haid : ¬ a.id = tid := by
        intro he
        exact hnd.1 (he ▸ hid ▸ List.mem_map_of_mem Job.id hl)
      rw [List.find?_cons_of_neg _ (by simp [haid])]
      exact ih hnd.2 hl

theorem markRunningJob_fields (j : Job) (t : Nat) :
    (markRunningJob j t).id = j.id ∧
    (markRunningJob j t).status = .running ∧
    (markRunningJob j t).job_type = j.job_type ∧
    (markRunningJob j t).created_at = j.created_at ∧
    (markRunningJob j t).started_at = some t ∧
    (markRunningJob j t).completed_at = j.completed_at ∧
    (markRunningJob j t).result = j.result ∧
    (markRunningJob j t).error_message = j.error_message ∧
    (markRunningJob j t).priority = j.priority ∧
    (markRunningJob j t).retry_count = j.retry_count ∧
    (markRunningJob j t).max_retries = j.max_retries ∧
    (markRunningJob j t).progress.progress_percentage = 0 :=
  ⟨rfl, rfl, rfl, rfl, rfl, rfl, rfl, rfl, rfl, rfl, rfl, rfl⟩

theorem completeJobFields_fields (j : Job) (t : Nat) (res : List (String × String)) :
    (completeJobFields j t res).id = j.id ∧
    (completeJobFields j t res).status = .completed ∧
    (completeJobFields j t res).created_at = j.created_at ∧
    (completeJobFields j t res).started_at = j.started_at ∧
    (completeJobFields j t res).completed_at = some t ∧
    (completeJobFields j t res).result = some res ∧
    (completeJobFields j t res).priority = j.priority ∧
    (completeJobFields j t res).retry_count = j.retry_count ∧
    (completeJobFields j t res).max_retries = j.max_retries ∧
    (completeJobFields j t res).progress.progress_percentage = 100 :=
  ⟨rfl, rfl, rfl, rfl, rfl, rfl, rfl, rfl, rfl, rfl⟩

theorem failJobFields_spec (j : Job) (t : Nat) (e : String) :
    failJobFields j t e =
      if j.retry_count < j.max_retries then
        { j with status := .pending
                 started_at := none
                 completed_at := none
                 error_message := none
                 progress := {}
                 retry_count := j.retry_count + 1 }
      else
        { j with status := .failed
                 completed_at := some t
                 error_message := some e
                 progress := { j.progress with
                               step_description := some ("Failed: " ++ e) } } := by
  dsimp only [failJobFields]

theorem failJobFields_id (j : Job) (t : Nat) (e : String) :
    (failJobFields j t e).id = j.id := by
  rw [failJobFields_spec]; split <;> rfl

theorem failJobFields_priority (j : Job) (t : Nat) (e : String) :
    (failJobFields j t e).priority = j.priority := by
  rw [failJobFields_spec]; split <;> rfl

theorem failJobFields_created_at (j : Job) (t : Nat) (e : String) :
    (failJobFields j t e).created_at = j.created_at := by
  rw [failJobFields_spec]; split <;> rfl

theorem failJobFields_max_retries (j : Job) (t : Nat) (e : String) :
    (failJobFields j t e).max_retries = j.max_retries := by
  rw [failJobFields_spec]; split <;> rfl

theorem failJobFields_pending_iff (j : Job) (t : Nat) (e : String) :
    (failJobFields j t e).status = .pending ↔ j.retry_count < j.max_retries := by
  rw [failJobFields_spec]
  split <;> rename_i h <;> simp [h]

theorem findJob_createJob (s : ManagerState) (jt : JobType)
    (priority timeout id : Nat) (ja : Job) (h : findJob s id = some ja) :
    findJob (createJob s jt priority timeout).2 id = some ja := by
  simp only [findJob, createJob] at *
  rw [List.find?_append, h]
  rfl

theorem findJob_update_state (s : ManagerState) (jobs2 : List Job)
    (queue2 : List (Nat × Nat)) (n2 c2 tid : Nat) (f : Job → Job)
    (hf : ∀ j, (f j).id = j.id)
    (hj : jobs2 = updateJob s.jobs tid f) :
    ∀ id, findJob { jobs := jobs2, queue := queue2, nextId := n2, clock := c2 } id =
      if id = tid then (findJob s id).map f else findJob s id := by
  intro id
  by_cases hid : id = tid
  · subst hid
    simp only [findJob, hj, if_pos rfl]
    exact find?_updateJob_eq s.jobs id f hf
  · simp only [findJob, hj, if_neg hid]
    exact find?_updateJob_ne s.jobs id tid f hf hid

theorem findJob_cancelJob (s : ManagerState) (cid id : Nat) (ja : Job)
    (h : findJob s id = some ja) :
    ∃ jb, findJob (cancelJob s cid).2 id = some jb ∧ JobChange s.clock ja jb := by
  cases h0 : findJob s cid with
  | none =>
    refine ⟨ja, ?_, JobChange.same ja⟩
    simp [cancelJob, h0, h]
  | some j0 =>
    by_cases hp : j0.status = JobStatus.pending
    · have hs2 : (cancelJob s cid).2 =
        { jobs := updateJob s.jobs cid
            (fun x => { x with status := .cancelled, completed_at := some s.clock })
          queue := s.queue, nextId := s.nextId, clock := s.clock + 1 } := by
        simp [cancelJob, h0, hp]
      rw [hs2]
      rw [findJob_update_state s _ _ _ _ cid
            (fun x => { x with status := .cancelled, completed_at := some s.clock })
            (fun j => rfl) rfl id]
      by_cases hid : id = cid
      · subst hid
        have hj : j0 = ja := by rw [h0] at h; exact Option.some_inj.mp h
        subst hj
        rw [if_pos rfl, h]
        exact ⟨_, rfl, JobChange.cancelled j0 hp⟩
      · rw [if_neg hid, h]
        exact ⟨ja, rfl, JobChange.same ja⟩
    · refine ⟨ja, ?_, JobChange.same ja⟩
      simp [cancelJob, h0, hp, h]

theorem findJob_workerPoll (s : ManagerState) (id : Nat) (ja : Job)
    (h : findJob s id = some ja) :
    ∃ jb, findJob (workerPoll s) id = some jb ∧ JobChange s.clock ja jb := by
  cases hq : s.queue with
  | nil =>
    refine ⟨ja, ?_, JobChange.same ja⟩
    simp [workerPoll, hq, h]
  | cons t rest =>
    obtain ⟨p, tid⟩ := t
    cases h0 : findJob s tid with
    | none =>
      refine ⟨ja, ?_, JobChange.same ja⟩
      have hs2 : workerPoll s =
          { jobs := s.jobs, queue := rest, nextId := s.nextId, clock := s.clock } := by
        simp [workerPoll, hq, h0]
      rw [hs2]
      exact h
    | some j0 =>
      by_cases hp : j0.status = JobStatus.pending
      · have hs2 : workerPoll s =
          { jobs := updateJob s.jobs tid (fun x => markRunningJob x s.clock)
            queue := rest, nextId := s.nextId, clock := s.clock + 1 } := by
          simp [workerPoll, hq, h0, hp]
        rw [hs2]
        rw [findJob_update_state s _ _ _ _ tid
              (fun x => markRunningJob x s.clock) (fun j => rfl) rfl id]
        by_cases hid : id = tid
        · subst hid
          have hj : j0 = ja := by rw [h0] at h; exact Option.some_inj.mp h
          subst hj
          rw [if_pos rfl, h]
          exact ⟨_, rfl, JobChange.started j0 hp⟩
        · rw [if_neg hid, h]
          exact ⟨ja, rfl, JobChange.same ja⟩
      · refine ⟨ja, ?_, JobChange.same ja⟩
        have hs2 : workerPoll s =
            { jobs := s.jobs, queue := rest, nextId := s.nextId, clock := s.clock } := by
          simp [workerPoll, hq, h0, hp]
        rw [hs2]
        exact h

theorem findJob_completeStep (s : ManagerState) (id0 id : Nat) (j0 ja : Job)
    (res : List (String × String))
    (hfind : findJob s id0 = some j0) (hrun : j0.status = .running)
    (h : findJob s id = some ja) :
    ∃ jb, findJob (completeStep s id0 res) id = some jb ∧ JobChange s.clock ja jb := by
  have hs2 : completeStep s id0 res =
      { jobs := updateJob s.jobs id0 (fun x => completeJobFields x s.clock res)
        queue := s.queue, nextId := s.nextId, clock := s.clock + 1 } := by
    simp [completeStep]
  rw [hs2]
  rw [findJob_update_state s _ _ _ _ id0
        (fun x => completeJobFields x s.clock res) (fun j => rfl) rfl id]
  by_cases hid : id = id0
  · subst hid
    have hj : j0 = ja := by rw [hfind] at h; exact Option.some_inj.mp h
    subst hj
    rw [if_pos rfl, h]
    exact ⟨_, rfl, JobChange.completed j0 res hrun⟩
  · rw [if_neg hid, h]
    exact ⟨ja, rfl, JobChange.same ja⟩

theorem findJob_failStep (s : ManagerState) (id0 id : Nat) (j0 ja : Job)
    (err : String)
    (hfind : findJob s id0 = some j0) (hrun : j0.status = .running)
    (h : findJob s id = some ja) :
    ∃ jb, findJob (failStep s id0 err) id = some jb ∧ JobChange s.clock ja jb := by
  have hs2 : failStep s id0 err =
      { jobs := updateJob s.jobs id0 (fun x => failJobFields x s.clock err)
        queue := if failRequeues j0 then s.queue ++ [(j0.priority, j0.id)]
                 else s.queue
        nextId := s.nextId, clock := s.clock + 1 } := by
    simp [failStep, hfind]
  rw [hs2]
  rw [findJob_update_state s _ _ _ _ id0
        (fun x => failJobFields x s.clock err)
        (fun j => failJobFields_id j s.clock err) rfl id]
  by_cases hid : id = id0
  · subst hid
    have hj : j0 = ja := by rw [hfind] at h; exact Option.some_inj.mp h
    subst hj
    rw [if_pos rfl, h]
    exact ⟨_, rfl, JobChange.failed j0 err hrun⟩
  · rw [if_neg hid, h]
    exact ⟨ja, rfl, JobChange.same ja⟩

theorem findJob_setProgress (s : ManagerState) (id0 id : Nat) (j0 ja : Job)
    (p : JobProgress)
    (hfind : findJob s id0 = some j0) (hrun : j0.status = .running)
    (h : findJob s id = some ja) :
    ∃ jb, findJob (setProgress s id0 p) id = some jb ∧ JobChange s.clock ja jb := by
  have hs2 : setProgress s id0 p =
      { jobs := updateJob s.jobs id0 (fun x => { x with progress := p })
        queue := s.queue, nextId := s.nextId, clock := s.clock } := by
    simp [setProgress]
  rw [hs2]
  rw [findJob_update_state s _ _ _ _ id0
        (fun x => { x with progress := p }) (fun j => rfl) rfl id]
  by_cases hid : id = id0
  · subst hid
    have hj : j0 = ja := by rw [hfind] at h; exact Option.some_inj.mp h
    subst hj
    rw [if_pos rfl, h]
    exact ⟨_, rfl, JobChange.progressed j0 p hrun⟩
  · rw [if_neg hid, h]
    exact ⟨ja, rfl, JobChange.same ja⟩

theorem step_find_cases {s s' : ManagerState} (hstep : Step s s') :
    ∀ id ja, findJob s id = some ja →
      ∃ jb, findJob s' id = some jb ∧ JobChange s.clock ja jb := by
  intro id ja h
  cases hstep with
  | create jt priority timeout =>
    exact ⟨ja, findJob_createJob s jt priority timeout id ja h, JobChange.same ja⟩
  | cancel cid => exact findJob_cancelJob s cid id ja h
  | poll => exact findJob_workerPoll s id ja h
  | succeed id0 res j0 hfind hrun =>
    exact findJob_completeStep s id0 id j0 ja res hfind hrun h
  | fail id0 err j0 hfind hrun =>
    exact findJob_failStep s id0 id j0 ja err hfind hrun h
  | progressUpdate id0 p j0 hfind hrun =>
    exact findJob_setProgress s id0 id j0 ja p hfind hrun h

theorem jobChange_id {clock : Nat} {ja jb : Job} (h : JobChange clock ja jb) :
    jb.id = ja.id := by
  cases h with
  | same => rfl
  | cancelled h => rfl
  | started h => rfl
  | completed res h => rfl
  | failed err h => exact failJobFields_id ja clock err
  | progressed p h => rfl

theorem jobChange_priority {clock : Nat} {ja jb : Job} (h : JobChange clock ja jb) :
    jb.priority = ja.priority := by
  cases h with
  | same => rfl
  | cancelled h => rfl
  | started h => rfl
  | completed res h => rfl
  | failed err h => exact failJobFields_priority ja clock err
  | progressed p h => rfl

theorem jobChange_created_at {clock : Nat} {ja jb : Job} (h : JobChange clock ja jb) :
    jb.created_at = ja.created_at := by
  cases h with
  | same => rfl
  | cancelled h => rfl
  | started h => rfl
  | completed res h => rfl
  | failed err h => exact failJobFields_created_at ja clock err
  | progressed p h => rfl

theorem jobChange_of_terminal {clock : Nat} {ja jb : Job} (h : JobChange clock ja jb)
    (ht : ja.status = .completed ∨ ja.status = .cancelled) : jb = ja := by
  cases h with
  | same => rfl
  | cancelled h => rw [h] at ht; rcases ht with h1 | h1 <;> cases h1
  | started h => rw [h] at ht; rcases ht with h1 | h1 <;> cases h1
  | completed res h => rw [h] at ht; rcases ht with h1 | h1 <;> cases h1
  | failed err h => rw [h] at ht; rcases ht with h1 | h1 <;> cases h1
  | progressed p h => rw [h] at ht; rcases ht with h1 | h1 <;> cases h1

theorem step_clock {s s' : ManagerState} (h : Step s s') : s.clock ≤ s'.clock := by
  cases h with
  | create jt priority timeout => simp [createJob]
  | cancel cid =>
    unfold cancelJob
    cases h0 : findJob s cid with
    | none => simp
    | some j0 => by_cases hp : j0.status = JobStatus.pending <;> simp [hp]
  | poll =>
    unfold workerPoll
    cases hq : s.queue with
    | nil => simp
    | cons t rest =>
      obtain ⟨p, tid⟩ := t
      cases h0 : findJob s tid with
      | none => simp [h0]
      | some j0 => by_cases hp : j0.status = JobStatus.pending <;> simp [h0, hp]
  | succeed id0 res j0 hfind hrun => simp [completeStep]
  | fail id0 err j0 hfind hrun =>
    unfold failStep
    rw [hfind]
    simp
  | progressUpdate id0 p j0 hfind hrun => simp [setProgress]

theorem steps_find_terminal {s s' : ManagerState} (hsteps : Steps s s') :
    ∀ id (j : Job), findJob s id = some j →
      (j.status = .completed ∨ j.status = .cancelled) →
      findJob s' id = some j := by
  induction hsteps with
  | refl => exact fun id j h _ => h
  | tail hab hbc ih =>
    intro id j h ht
    obtain ⟨jb, hfind, hchange⟩ := step_find_cases hbc id j (ih id j h ht)
    rw [jobChange_of_terminal hchange ht] at hfind
    exact hfind

theorem markRunningJob_retry_count (j : Job) (t : Nat) :
    (markRunningJob j t).retry_count = j.retry_count := rfl

theorem markRunningJob_max_retries (j : Job) (t : Nat) :
    (markRunningJob j t).max_retries = j.max_retries := rfl

/-- C4: for every interleaving of create / cancel / worker dequeue /
execute steps, a job that is COMPLETED or CANCELLED never changes again;
a job cancelled while still queued is never subsequently RUNNING (the
worker re-validates PENDING before executing); and the failure epilogue
sends a job back to PENDING only while `retry_count < max_retries`. -/
theorem terminal_status_never_changes (s s' : ManagerState) (hsteps : Steps s s') :
    (∀ (id : Nat) (j : Job), findJob s id = some j →
      (j.status = .completed ∨ j.status = .cancelled) → findJob s' id = some j) ∧
    (∀ (id : Nat) (j : Job), findJob s id = some j → j.status = .cancelled →
      ∀ jb, findJob s' id = some jb → jb.status ≠ .running) ∧
    (∀ (j : Job) (t : Nat) (err : String),
      (failJobFields j t err).status = .pending → j.retry_count < j.max_retries) := by
  refine ⟨steps_find_terminal hsteps, ?_, ?_⟩
  · intro id j h hc jb hjb hr
    have h2 := steps_find_terminal hsteps id j h (Or.inr hc)
    rw [h2] at hjb
    have hj : j = jb := Option.some_inj.mp hjb
    rw [← hj, hc] at hr
    cases hr
  · intro j t err hp
    exact (failJobFields_pending_iff j t err).mp hp

/-- Witness for C4: in the concrete state `stateW` job 0 is COMPLETED, and
after a further concrete step (a cancel request on it) it is unchanged. -/
theorem terminal_status_never_changes_witness :
    findJob stateW 0 = some jobW0 ∧
    (jobW0.status = .completed ∨ jobW0.status = .cancelled) ∧
    findJob (cancelJob stateW 0).2 0 = some jobW0 := by
  refine ⟨by decide, Or.inl (by decide), ?_⟩
  exact (terminal_status_never_changes stateW (cancelJob stateW 0).2
    (Relation.ReflTransGen.single (Step.cancel stateW 0))).1 0 jobW0 (by decide)
    (Or.inl (by decide))

/-- C7: on executor failure with retry budget remaining, the job record is
reset to PENDING with `retry_count` incremented by exactly one, the
timestamps and error cleared, the progress replaced by the default record,
and a ticket with the unchanged priority is re-enqueued; with the budget
exhausted the job becomes FAILED with `completed_at` and the error set.
The job priority is preserved by every step of the system, so the ticket
carries the creation priority. -/
theorem failure_transition_spec :
    (∀ (j : Job) (t : Nat) (err : String), j.retry_count < j.max_retries →
      failJobFields j t err =
        { j with status := .pending
                 started_at := none
                 completed_at := none
                 error_message := none
                 progress := {}
                 retry_count := j.retry_count + 1 }) ∧
    (∀ (j : Job) (t : Nat) (err : String), ¬ j.retry_count < j.max_retries →
      failJobFields j t err =
        { j with status := .failed
                 completed_at := some t
                 error_message := some err
                 progress := { j.progress with
                               step_description := some ("Failed: " ++ err) } }) ∧
    (∀ (s : ManagerState) (id : Nat) (j : Job) (err : String),
      findJob s id = some j → j.retry_count < j.max_retries →
      (failStep s id err).queue = s.queue ++ [(j.priority, j.id)]) ∧
    (∀ (s s' : ManagerState), Step s s' → ∀ (id : Nat) (ja jb : Job),
      findJob s id = some ja → findJob s' id = some jb →
      jb.priority = ja.priority) := by
  refine ⟨?_, ?_, ?_, ?_⟩
  · intro j t err h
    rw [failJobFields_spec, if_pos h]
  · intro j t err h
    rw [failJobFields_spec, if_neg h]
  · intro s id j err hfind hlt
    unfold failStep
    rw [hfind]
    simp [failRequeues, hlt]
  · intro s s' hstep id ja jb ha hb
    obtain ⟨jc, hc, hch⟩ := step_find_cases hstep id ja ha
    rw [hb] at hc
    rw [Option.some_inj.mp hc]
    exact jobChange_priority hch

/-- Witness for C7 at a concrete job with retry budget remaining, plus a
concrete re-enqueue in the two-job state. -/
theorem failure_transition_spec_witness :
    jobW.retry_count < jobW.max_retries ∧
    failJobFields jobW 5 ("boom") =
      { jobW with status := .pending
                  started_at := none
                  completed_at := none
                  error_message := none
                  progress := {}
                  retry_count := jobW.retry_count + 1 } :=
  ⟨by decide, failure_transition_spec.1 jobW 5 ("boom") (by decide)⟩

/-- C10: a health-check attempt always succeeds: the job ends COMPLETED
with the fixed result payload whose status field is healthy and which
carries timestamp and message fields, progress is forced to 100, no retry
is consumed and no error is recorded. -/
theorem health_check_attempt_always_completes
    (agent : Except String (List (String × String))) (j : Job) (t : Nat)
    (hjt : j.job_type = .health_check) :
    (runAttempt agent j t).status = .completed ∧
    (runAttempt agent j t).retry_count = j.retry_count ∧
    (runAttempt agent j t).error_message = j.error_message ∧
    (runAttempt agent j t).result = some (healthCheckResult t) ∧
    (healthCheckResult t).lookup ("status") = some ("healthy") ∧
    ((healthCheckResult t).lookup ("timestamp")).isSome = true ∧
    ((healthCheckResult t).lookup ("message")).isSome = true ∧
    (runAttempt agent j t).progress.progress_percentage = 100 := by
  unfold runAttempt
  rw [hjt]
  simp [dispatchOutcome, completeJobFields, markRunningJob, healthCheckResult,
        List.lookup]

/-- Witness for C10 at a concrete health-check job, with an executor
outcome parameter that would fail a food search. -/
theorem health_check_attempt_always_completes_witness :
    jobW.job_type = .health_check ∧
    ((runAttempt (Except.error ("down")) jobW 7).status = .completed ∧
     (runAttempt (Except.error ("down")) jobW 7).retry_count = jobW.retry_count ∧
     (runAttempt (Except.error ("down")) jobW 7).error_message = jobW.error_message ∧
     (runAttempt (Except.error ("down")) jobW 7).result = some (healthCheckResult 7) ∧
     (healthCheckResult 7).lookup ("status") = some ("healthy") ∧
     ((healthCheckResult 7).lookup ("timestamp")).isSome = true ∧
     ((healthCheckResult 7).lookup ("message")).isSome = true ∧
     (runAttempt (Except.error ("down")) jobW 7).progress.progress_percentage = 100) :=
  ⟨rfl, health_check_attempt_always_completes (Except.error ("down")) jobW 7 rfl⟩

/-- C6: within a single execution attempt the observed progress percentage
sequence is monotonically non-decreasing — whichever prefix of it a failing
attempt reaches — and the retry reset leaves the percentage at 0 for the
next attempt. -/
theorem progress_monotone_within_attempt :
    (∀ (pre : JobProgress) (jt : JobType) (k : Nat),
      (((attemptProgressTrace pre jt).map
        (fun p => p.progress_percentage)).take k).Pairwise (· ≤ ·)) ∧
    (∀ (j : Job) (t : Nat) (err : String), j.retry_count < j.max_retries →
      (failJobFields j t err).progress.progress_percentage = 0) := by
  constructor
  · intro pre jt k
    have hfull : ((attemptProgressTrace pre jt).map
        (fun p => p.progress_percentage)).Pairwise (· ≤ ·) := by
      cases jt <;>
        simp [attemptProgressTrace, executorUpdates, foodSearchUpdates,
          healthCheckUpdates, completionUpdate, progressStates,
          markRunningProgress]
    exact List.Pairwise.sublist (List.take_sublist k _) hfull
  · intro j t err h
    rw [failJobFields_spec, if_pos h]

/-- Witness for C6: the food-search trace prefix of length 3 and a concrete
retried job. -/
theorem progress_monotone_within_attempt_witness :
    ((((attemptProgressTrace {} JobType.food_search).map
        (fun p => p.progress_percentage)).take 3).Pairwise (· ≤ ·)) ∧
    jobW.retry_count < jobW.max_retries ∧
    (failJobFields jobW 5 ("e")).progress.progress_percentage = 0 :=
  ⟨progress_monotone_within_attempt.1 {} JobType.food_search 3, by decide,
   progress_monotone_within_attempt.2 jobW 5 ("e") (by decide)⟩

/-- C1 (counterexample): job A (id 0) is enqueued at priority 1, then job B
(id 1) at priority 9, into an otherwise idle manager; the first worker
dequeue picks A — the earlier-enqueued, lower-priority job — marking it
RUNNING while B stays PENDING.  This refutes the claim that the first
dequeue yields B: the queue is a plain `asyncio.Queue`, so the priority
component of the ticket never orders dequeues. -/
theorem priority_ignored_counterexample :
    twoJobState.queue = [(1, 0), (9, 1)] ∧
    (findJob twoJobState 0).map Job.priority = some 1 ∧
    (findJob twoJobState 1).map Job.priority = some 9 ∧
    (findJob twoJobState 0).map Job.status = some .pending ∧
    (findJob twoJobState 1).map Job.status = some .pending ∧
    (findJob (workerPoll twoJobState) 0).map Job.status = some .running ∧
    (findJob (workerPoll twoJobState) 1).map Job.status = some .pending := by
  decide

/-- C1 (amended): the job queue is FIFO: a worker poll always consumes the
head (earliest-enqueued) ticket whatever the priorities, and for any two
priorities the earlier-created of two jobs in an otherwise idle manager is
dequeued and marked RUNNING first while the other stays PENDING. -/
theorem dequeue_order_is_fifo :
    (∀ (s : ManagerState) (p id : Nat) (rest : List (Nat × Nat)),
      s.queue = (p, id) :: rest → (workerPoll s).queue = rest) ∧
    (∀ (p1 p2 : Nat) (jt1 jt2 : JobType),
      (findJob (workerPoll
        (createJob (createJob initState jt1 p1 300).2 jt2 p2 300).2) 0).map
          Job.status = some .running ∧
      (findJob (workerPoll
        (createJob (createJob initState jt1 p1 300).2 jt2 p2 300).2) 1).map
          Job.status = some .pending) := by
  constructor
  · intro s p id rest h
    unfold workerPoll
    rw [h]
    cases h0 : findJob s id with
    | none => simp [h0]
    | some j0 => by_cases hp : j0.status = JobStatus.pending <;> simp [h0, hp]
  · intro p1 p2 jt1 jt2
    constructor <;>
      simp [createJob, initState, workerPoll, findJob, updateJob,
        markRunningJob, markRunningProgress]

/-- Witness for C1 (amended), at the concrete two-job state. -/
theorem dequeue_order_is_fifo_witness :
    twoJobState.queue = (1, 0) :: [(9, 1)] ∧
    (workerPoll twoJobState).queue = [(9, 1)] :=
  ⟨by decide, dequeue_order_is_fifo.1 twoJobState 1 0 [(9, 1)] (by decide)⟩

theorem runFailingAux_zero (errf : Nat → String) (t : Nat) (j : Job) :
    runFailingAux errf 0 t j =
      (failJobFields (markRunningJob j t) (t + 1) (errf j.retry_count), 1) := rfl

theorem runFailingAux_succ (errf : Nat → String) (fuel t : Nat) (j : Job) :
    runFailingAux errf (fuel + 1) t j =
      if (failJobFields (markRunningJob j t) (t + 1)
            (errf j.retry_count)).status = .pending then
        ((runFailingAux errf fuel (t + 2)
            (failJobFields (markRunningJob j t) (t + 1) (errf j.retry_count))).1,
         (runFailingAux errf fuel (t + 2)
            (failJobFields (markRunningJob j t) (t + 1) (errf j.retry_count))).2 + 1)
      else (failJobFields (markRunningJob j t) (t + 1) (errf j.retry_count), 1) := rfl

theorem runFailingAux_spec (errf : Nat → String) :
    ∀ (fuel t : Nat) (j : Job), fuel = j.max_retries - j.retry_count →
      j.retry_count ≤ j.max_retries →
      (runFailingAux errf fuel t j).2 = fuel + 1 ∧
      (runFailingAux errf fuel t j).1.status = .failed ∧
      (runFailingAux errf fuel t j).1.error_message = some (errf j.max_retries) ∧
      (runFailingAux errf fuel t j).1.retry_count = j.max_retries := by
  intro fuel
  induction fuel with
  | zero =>
    intro t j hfuel hle
    have heq : j.retry_count = j.max_retries := by omega
    have hcond : ¬ (markRunningJob j t).retry_count <
        (markRunningJob j t).max_retries := by
      rw [markRunningJob_retry_count, markRunningJob_max_retries]
      omega
    have hfj := failJobFields_spec (markRunningJob j t) (t + 1) (errf j.retry_count)
    rw [if_neg hcond] at hfj
    rw [runFailingAux_zero]
    refine ⟨rfl, ?_, ?_, ?_⟩ <;> rw [hfj] <;> simp [markRunningJob, heq]
  | succ fuel ih =>
    intro t j hfuel hle
    have hlt : j.retry_count < j.max_retries := by omega
    have hcond : (markRunningJob j t).retry_count <
        (markRunningJob j t).max_retries := by
      rw [markRunningJob_retry_count, markRunningJob_max_retries]
      exact hlt
    have hfj := failJobFields_spec (markRunningJob j t) (t + 1) (errf j.retry_count)
    rw [if_pos hcond] at hfj
    have hpend : (failJobFields (markRunningJob j t) (t + 1)
        (errf j.retry_count)).status = .pending := by
      rw [hfj]
    have hretry : (failJobFields (markRunningJob j t) (t + 1)
        (errf j.retry_count)).retry_count = j.retry_count + 1 := by
      rw [hfj]; rfl
    have hmax : (failJobFields (markRunningJob j t) (t + 1)
        (errf j.retry_count)).max_retries = j.max_retries := by
      rw [hfj]; rfl
    obtain ⟨hc, hs, he, hr⟩ := ih (t + 2)
      (failJobFields (markRunningJob j t) (t + 1) (errf j.retry_count))
      (by rw [hretry, hmax]; omega) (by rw [hretry, hmax]; omega)
    rw [runFailingAux_succ, if_pos hpend]
    exact ⟨by rw [hc], hs, by rw [he, hmax], by rw [hr, hmax]⟩

/-- C2: a job whose executor fails on every attempt reaches FAILED after
exactly `max_retries + 1` execution attempts (never more), with the final
record carrying the last attempt error message and
`retry_count = max_retries`. -/
theorem always_failing_job_attempt_count (errf : Nat → String) (t : Nat)
    (j : Job) (h0 : j.retry_count = 0) :
    (runFailing errf t j).2 = j.max_retries + 1 ∧
    (runFailing errf t j).1.status = .failed ∧
    (runFailing errf t j).1.error_message = some (errf j.max_retries) ∧
    (runFailing errf t j).1.retry_count = j.max_retries := by
  unfold runFailing
  have h := runFailingAux_spec errf (j.max_retries - j.retry_count) t j rfl
    (by omega)
  rw [h0, Nat.sub_zero] at h
  rw [h0, Nat.sub_zero]
  exact h

/-- Witness for C2: a fresh job with the default `max_retries = 3` makes
exactly 4 attempts; the last error message (indexed by the final
`retry_count`) is preserved. -/
theorem always_failing_job_attempt_count_witness :
    jobW.retry_count = 0 ∧ jobW.max_retries = 3 ∧
    ((runFailing (fun n => toString n) 0 jobW).2 = jobW.max_retries + 1 ∧
     (runFailing (fun n => toString n) 0 jobW).1.status = .failed ∧
     (runFailing (fun n => toString n) 0 jobW).1.error_message =
       some (toString jobW.max_retries) ∧
     (runFailing (fun n => toString n) 0 jobW).1.retry_count = jobW.max_retries) :=
  ⟨rfl, rfl, always_failing_job_attempt_count (fun n => toString n) 0 jobW rfl⟩

end JobSys

namespace JobSys

/-- C3: cancel_job succeeds exactly when the job exists and is PENDING, in
which case it becomes CANCELLED with `completed_at` set; otherwise the
manager state is left entirely unchanged, and the route layer answers
not-found for an unknown id and not-cancellable (with the current status)
for a job in any other status. -/
theorem cancel_succeeds_iff_pending (s : ManagerState) (id : Nat) :
    ((cancelJob s id).1 = true ↔
      ∃ j, findJob s id = some j ∧ j.status = .pending) ∧
    (∀ j, findJob s id = some j → j.status = .pending →
      findJob (cancelJob s id).2 id =
        some { j with status := .cancelled, completed_at := some s.clock }) ∧
    ((cancelJob s id).1 = false → (cancelJob s id).2 = s) ∧
    ((cancelRoute s id).1 = .notFound ↔ findJob s id = none) ∧
    (∀ j, findJob s id = some j → j.status ≠ .pending →
      (cancelRoute s id).1 = .notCancellable j.status) ∧
    (∀ j, findJob s id = some j → j.status = .pending →
      (cancelRoute s id).1 = .ok) := by
  cases h0 : findJob s id with
  | none =>
    have hc : cancelJob s id = (false, s) := by simp [cancelJob, h0]
    refine ⟨?_, ?_, ?_, ?_, ?_, ?_⟩
    · rw [hc]; simp
    · intro j hj; exact Option.noConfusion hj
    · intro _; rw [hc]
    · simp [cancelRoute, hc, h0]
    · intro j hj; exact Option.noConfusion hj
    · intro j hj; exact Option.noConfusion hj
  | some j0 =>
    by_cases hp : j0.status = JobStatus.pending
    · have hc : cancelJob s id =
        (true,
         { jobs := updateJob s.jobs id
             (fun x => { x with status := .cancelled
                                completed_at := some s.clock })
           queue := s.queue, nextId := s.nextId, clock := s.clock + 1 }) := by
        simp [cancelJob, h0, hp]
      refine ⟨?_, ?_, ?_, ?_, ?_, ?_⟩
      · rw [hc]; simp [hp]
      · intro j hj hjp
        obtain rfl : j0 = j := Option.some_inj.mp hj
        rw [hc, findJob_update_state s _ _ _ _ id
              (fun x => { x with status := .cancelled
                                 completed_at := some s.clock })
              (fun x => rfl) rfl id, if_pos rfl, h0]
        rfl
      · intro hfalse
        rw [hc] at hfalse
        cases hfalse
      · simp [cancelRoute, hc, h0]
      · intro j hj hne
        obtain rfl : j0 = j := Option.some_inj.mp hj
        exact absurd hp hne
      · intro j hj hjp
        simp [cancelRoute, hc]
    · have hc : cancelJob s id = (false, s) := by simp [cancelJob, h0, hp]
      refine ⟨?_, ?_, ?_, ?_, ?_, ?_⟩
      · rw [hc]; simp [hp]
      · intro j hj hjp
        obtain rfl : j0 = j := Option.some_inj.mp hj
        exact absurd hjp hp
      · intro _; rw [hc]
      · simp [cancelRoute, hc, h0]
      · intro j hj hne
        obtain rfl : j0 = j := Option.some_inj.mp hj
        simp [cancelRoute, hc, h0]
      · intro j hj hjp
        obtain rfl : j0 = j := Option.some_inj.mp hj
        exact absurd hjp hp

/-- Witness for C3: cancelling the PENDING job 1 of the two-job state
succeeds and sets CANCELLED with `completed_at`; the route answers ok. -/
theorem cancel_succeeds_iff_pending_witness :
    findJob twoJobState 1 = some jobB ∧ jobB.status = .pending ∧
    findJob (cancelJob twoJobState 1).2 1 =
      some { jobB with status := .cancelled
                       completed_at := some twoJobState.clock } ∧
    (cancelRoute twoJobState 1).1 = .ok :=
  ⟨by decide, by decide,
   (cancel_succeeds_iff_pending twoJobState 1).2.1 jobB (by decide) (by decide),
   (cancel_succeeds_iff_pending twoJobState 1).2.2.2.2.2 jobB (by decide)
     (by decide)⟩

end JobSys

namespace JobSys

theorem jobLE_trans : ∀ (a b c : Job), jobLE a b → jobLE b c → jobLE a c := by
  intro a b c hab hbc
  simp [jobLE] at *
  omega

theorem jobLE_total : ∀ (a b : Job), jobLE a b || jobLE b a := by
  intro a b
  simp [jobLE]
  omega

/-- C8: `list_jobs` returns only stored jobs matching the status filter,
sorted newest-created-first, and at most `limit` of them; the filter is
applied before the truncation, so the result length is the minimum of the
limit and the number of matching jobs. -/
theorem list_jobs_filter_sort_limit (jobs : List Job) (stOpt : Option JobStatus)
    (limit : Nat) :
    (∀ j ∈ listJobs jobs stOpt limit, j ∈ jobs ∧
      ∀ st, stOpt = some st → j.status = st) ∧
    (listJobs jobs stOpt limit).Pairwise
      (fun a b => b.created_at ≤ a.created_at) ∧
    (listJobs jobs stOpt limit).length =
      min limit (match stOpt with
        | some st => (jobs.filter (fun j => j.status == st)).length
        | none => jobs.length) := by
  refine ⟨?_, ?_, ?_⟩
  · intro j hj
    cases stOpt with
    | none =>
      have hm : j ∈ jobs := by
        have := List.mem_of_mem_take hj
        rw [List.mem_mergeSort] at this
        exact this
      exact ⟨hm, fun st hst => Option.noConfusion hst⟩
    | some st =>
      have hm : j ∈ jobs.filter (fun x => x.status == st) := by
        have := List.mem_of_mem_take hj
        rw [List.mem_mergeSort] at this
        exact this
      rw [List.mem_filter] at hm
      refine ⟨hm.1, fun st2 hst => ?_⟩
      obtain rfl : st = st2 := Option.some_inj.mp hst
      exact eq_of_beq hm.2
  · have hsorted : ∀ (l : List Job),
        (l.mergeSort jobLE).Pairwise (fun a b => b.created_at ≤ a.created_at) := by
      intro l
      have h := List.sorted_mergeSort jobLE_trans jobLE_total l
      exact h.imp (fun hab => by simpa [jobLE] using hab)
    cases stOpt with
    | none => exact (hsorted jobs).sublist (List.take_sublist _ _)
    | some st =>
      exact (hsorted (jobs.filter (fun x => x.status == st))).sublist
        (List.take_sublist _ _)
  · cases stOpt with
    | none => simp [listJobs, List.length_take]
    | some st => simp [listJobs, List.length_take]

/-- Witness for C8 at a concrete store: the pending job of `stateW`. -/
theorem list_jobs_filter_sort_limit_witness :
    jobB ∈ listJobs stateW.jobs (some JobStatus.pending) 5 ∧
    (jobB ∈ stateW.jobs ∧
      ∀ st, some JobStatus.pending = some st → jobB.status = st) ∧
    (listJobs stateW.jobs (some JobStatus.pending) 5).length =
      min 5 ((stateW.jobs.filter (fun j => j.status == JobStatus.pending)).length) := by
  have hfilter : stateW.jobs.filter (fun j => j.status == JobStatus.pending) =
      [jobB] := by decide
  have hlist : listJobs stateW.jobs (some JobStatus.pending) 5 = [jobB] := by
    show ((stateW.jobs.filter
      (fun j => j.status == JobStatus.pending)).mergeSort jobLE).take 5 = [jobB]
    rw [hfilter, List.mergeSort_singleton]
    rfl
  have hmem : jobB ∈ listJobs stateW.jobs (some JobStatus.pending) 5 := by
    rw [hlist]
    exact List.mem_singleton.mpr rfl
  exact ⟨hmem,
    (list_jobs_filter_sort_limit stateW.jobs (some JobStatus.pending) 5).1 jobB
      hmem,
    (list_jobs_filter_sort_limit stateW.jobs (some JobStatus.pending) 5).2.2⟩

end JobSys

namespace JobSys

/-- C9 (counterexample): with 1001 jobs in the store (all PENDING), the
stats route reports `total_jobs = 1000` — the counts are computed over
`list_jobs(limit=1000)`, so everything beyond the 1000 newest jobs is
silently dropped; the pending count is likewise short of the true count. -/
theorem stats_truncated_counterexample :
    manyJobs.length = 1001 ∧
    (getJobStats manyJobs).total_jobs = 1000 ∧
    (getJobStats manyJobs).total_jobs ≠ manyJobs.length ∧
    (getJobStats manyJobs).pending <
      (manyJobs.filter (fun j => j.status == JobStatus.pending)).length := by
  have hlen : manyJobs.length = 1001 := by
    simp [manyJobs]
  have htotal : (getJobStats manyJobs).total_jobs = 1000 := by
    show ((manyJobs.mergeSort jobLE).take 1000).length = 1000
    rw [List.length_take, List.length_mergeSort, hlen]
    omega
  have hallpending :
      manyJobs.filter (fun j => j.status == JobStatus.pending) = manyJobs := by
    rw [List.filter_eq_self]
    intro a ha
    simp only [manyJobs, List.mem_map] at ha
    obtain ⟨i, _, rfl⟩ := ha
    rfl
  refine ⟨hlen, htotal, by rw [htotal, hlen]; decide, ?_⟩
  have hple : (getJobStats manyJobs).pending ≤ 1000 := by
    show (((manyJobs.mergeSort jobLE).take 1000).filter
      (fun j => j.status == JobStatus.pending)).length ≤ 1000
    calc (((manyJobs.mergeSort jobLE).take 1000).filter
        (fun j => j.status == JobStatus.pending)).length
        ≤ ((manyJobs.mergeSort jobLE).take 1000).length :=
          List.length_filter_le _ _
      _ = 1000 := by rw [List.length_take, List.length_mergeSort, hlen]; omega
  rw [hallpending, hlen]
  omega

/-- C9 (amended): whenever the store holds at most 1000 jobs — the
`limit=1000` passed by the stats route — the reported total and the five
per-status counts are exactly the store totals. -/
theorem stats_exact_up_to_1000 (jobs : List Job) (h : jobs.length ≤ 1000) :
    (getJobStats jobs).total_jobs = jobs.length ∧
    (getJobStats jobs).pending =
      (jobs.filter (fun j => j.status == JobStatus.pending)).length ∧
    (getJobStats jobs).running =
      (jobs.filter (fun j => j.status == JobStatus.running)).length ∧
    (getJobStats jobs).completed =
      (jobs.filter (fun j => j.status == JobStatus.completed)).length ∧
    (getJobStats jobs).failed =
      (jobs.filter (fun j => j.status == JobStatus.failed)).length ∧
    (getJobStats jobs).cancelled =
      (jobs.filter (fun j => j.status == JobStatus.cancelled)).length := by
  have hsortlen : (jobs.mergeSort jobLE).length = jobs.length :=
    List.length_mergeSort jobs
  have htake : (jobs.mergeSort jobLE).take 1000 = jobs.mergeSort jobLE :=
    List.take_of_length_le (by rw [hsortlen]; exact h)
  have hperm : List.Perm (jobs.mergeSort jobLE) jobs :=
    List.mergeSort_perm jobs jobLE
  have hcount : ∀ st : JobStatus,
      ((jobs.mergeSort jobLE).filter (fun j => j.status == st)).length =
        (jobs.filter (fun j => j.status == st)).length :=
    fun st => (hperm.filter (fun j => j.status == st)).length_eq
  refine ⟨?_, ?_, ?_, ?_, ?_, ?_⟩
  · show ((jobs.mergeSort jobLE).take 1000).length = jobs.length
    rw [htake, hsortlen]
  · show (((jobs.mergeSort jobLE).take 1000).filter
      (fun j => j.status == JobStatus.pending)).length = _
    rw [htake, hcount]
  · show (((jobs.mergeSort jobLE).take 1000).filter
      (fun j => j.status == JobStatus.running)).length = _
    rw [htake, hcount]
  · show (((jobs.mergeSort jobLE).take 1000).filter
      (fun j => j.status == JobStatus.completed)).length = _
    rw [htake, hcount]
  · show (((jobs.mergeSort jobLE).take 1000).filter
      (fun j => j.status == JobStatus.failed)).length = _
    rw [htake, hcount]
  · show (((jobs.mergeSort jobLE).take 1000).filter
      (fun j => j.status == JobStatus.cancelled)).length = _
    rw [htake, hcount]

/-- Witness for C9 (amended) at the concrete two-job store of `stateW`. -/
theorem stats_exact_up_to_1000_witness :
    stateW.jobs.length ≤ 1000 ∧
    (getJobStats stateW.jobs).total_jobs = stateW.jobs.length ∧
    (getJobStats stateW.jobs).pending =
      (stateW.jobs.filter (fun j => j.status == JobStatus.pending)).length ∧
    (getJobStats stateW.jobs).completed =
      (stateW.jobs.filter (fun j => j.status == JobStatus.completed)).length :=
  ⟨by decide,
   (stats_exact_up_to_1000 stateW.jobs (by decide)).1,
   (stats_exact_up_to_1000 stateW.jobs (by decide)).2.1,
   (stats_exact_up_to_1000 stateW.jobs (by decide)).2.2.2.1⟩

end JobSys

namespace JobSys

theorem step_nextId {s s' : ManagerState} (h : Step s s') : s.nextId ≤ s'.nextId := by
  cases h with
  | create jt priority timeout => simp [createJob]
  | cancel cid =>
    unfold cancelJob
    cases h0 : findJob s cid with
    | none => simp
    | some j0 => by_cases hp : j0.status = JobStatus.pending <;> simp [hp]
  | poll =>
    unfold workerPoll
    cases hq : s.queue with
    | nil => simp
    | cons t rest =>
      obtain ⟨p, tid⟩ := t
      cases h0 : findJob s tid with
      | none => simp [h0]
      | some j0 => by_cases hp : j0.status = JobStatus.pending <;> simp [h0, hp]
  | succeed id0 res j0 hfind hrun => simp [completeStep]
  | fail id0 err j0 hfind hrun =>
    unfold failStep
    rw [hfind]
  | progressUpdate id0 p j0 hfind hrun => simp [setProgress]

theorem mem_updateJob (jobs : List Job) (tid : Nat) (f : Job → Job) :
    ∀ jb ∈ updateJob jobs tid f, ∃ x ∈ jobs, jb = if x.id == tid then f x else x := by
  intro jb hjb
  simp only [updateJob, List.mem_map] at hjb
  obtain ⟨x, hx, hfx⟩ := hjb
  exact ⟨x, hx, hfx.symm⟩

theorem mem_update_cases (jobs : List Job) (tid : Nat) (f : Job → Job) (j0 : Job)
    (hnd : (jobs.map Job.id).Nodup)
    (hfind : jobs.find? (fun x => x.id == tid) = some j0) :
    ∀ jb ∈ updateJob jobs tid f, jb = f j0 ∨ jb ∈ jobs := by
  intro jb hjb
  obtain ⟨x, hx, rfl⟩ := mem_updateJob jobs tid f jb hjb
  by_cases hxid : x.id = tid
  · left
    have h3 := find?_eq_of_mem_of_nodup jobs x tid hnd hx hxid
    rw [hfind] at h3
    obtain rfl : j0 = x := Option.some_inj.mp h3
    simp [hxid]
  · right
    simpa [hxid] using hx

theorem step_mem_cases {s s' : ManagerState}
    (hnd : (s.jobs.map Job.id).Nodup) (hstep : Step s s') :
    ∀ jb ∈ s'.jobs,
      (∃ ja ∈ s.jobs, JobChange s.clock ja jb) ∨
      (jb.created_at = s.clock ∧ jb.status = .pending ∧ jb.started_at = none ∧
       jb.completed_at = none ∧ jb.id = s.nextId ∧ s'.nextId = s.nextId + 1) := by
  intro jb hjb
  cases hstep with
  | create jt priority timeout =>
    rcases List.mem_append.mp hjb with hold | hnew
    · exact Or.inl ⟨jb, hold, JobChange.same jb⟩
    · right
      have he : jb =
          { id := s.nextId
            job_type := jt
            created_at := s.clock
            priority := priority
            timeout_seconds := timeout } :=
        List.mem_singleton.mp hnew
      subst he
      exact ⟨rfl, rfl, rfl, rfl, rfl, rfl⟩
  | cancel cid =>
    cases h0 : findJob s cid with
    | none =>
      have hs2 : (cancelJob s cid).2 = s := by simp [cancelJob, h0]
      rw [hs2] at hjb
      exact Or.inl ⟨jb, hjb, JobChange.same jb⟩
    | some j0 =>
      by_cases hp : j0.status = JobStatus.pending
      · have hs2 : (cancelJob s cid).2.jobs = updateJob s.jobs cid
            (fun x => { x with status := .cancelled
                               completed_at := some s.clock }) := by
          simp [cancelJob, h0, hp]
        rw [hs2] at hjb
        rcases mem_update_cases s.jobs cid _ j0 hnd h0 jb hjb with he | hmem
        · subst he
          exact Or.inl ⟨j0, List.mem_of_find?_eq_some h0,
            JobChange.cancelled j0 hp⟩
        · exact Or.inl ⟨jb, hmem, JobChange.same jb⟩
      · have hs2 : (cancelJob s cid).2 = s := by simp [cancelJob, h0, hp]
        rw [hs2] at hjb
        exact Or.inl ⟨jb, hjb, JobChange.same jb⟩
  | poll =>
    cases hq : s.queue with
    | nil =>
      have hs2 : workerPoll s = s := by simp [workerPoll, hq]
      rw [hs2] at hjb
      exact Or.inl ⟨jb, hjb, JobChange.same jb⟩
    | cons t rest =>
      obtain ⟨p, tid⟩ := t
      cases h0 : findJob s tid with
      | none =>
        have hs2 : (workerPoll s).jobs = s.jobs := by simp [workerPoll, hq, h0]
        rw [hs2] at hjb
        exact Or.inl ⟨jb, hjb, JobChange.same jb⟩
      | some j0 =>
        by_cases hp : j0.status = JobStatus.pending
        · have hs2 : (workerPoll s).jobs = updateJob s.jobs tid
              (fun x => markRunningJob x s.clock) := by
            simp [workerPoll, hq, h0, hp]
          rw [hs2] at hjb
          rcases mem_update_cases s.jobs tid _ j0 hnd h0 jb hjb with he | hmem
          · subst he
            exact Or.inl ⟨j0, List.mem_of_find?_eq_some h0,
              JobChange.started j0 hp⟩
          · exact Or.inl ⟨jb, hmem, JobChange.same jb⟩
        · have hs2 : (workerPoll s).jobs = s.jobs := by
            simp [workerPoll, hq, h0, hp]
          rw [hs2] at hjb
          exact Or.inl ⟨jb, hjb, JobChange.same jb⟩
  | succeed id0 res j0 hfind hrun =>
    have hjb2 : jb ∈ updateJob s.jobs id0 (fun x => completeJobFields x s.clock res) :=
      hjb
    rcases mem_update_cases s.jobs id0 _ j0 hnd hfind jb hjb2 with he | hmem
    · subst he
      exact Or.inl ⟨j0, List.mem_of_find?_eq_some hfind,
        JobChange.completed j0 res hrun⟩
    · exact Or.inl ⟨jb, hmem, JobChange.same jb⟩
  | fail id0 err j0 hfind hrun =>
    have hs2 : (failStep s id0 err).jobs = updateJob s.jobs id0
        (fun x => failJobFields x s.clock err) := by
      simp [failStep, hfind]
    rw [hs2] at hjb
    rcases mem_update_cases s.jobs id0 _ j0 hnd hfind jb hjb with he | hmem
    · subst he
      exact Or.inl ⟨j0, List.mem_of_find?_eq_some hfind,
        JobChange.failed j0 err hrun⟩
    · exact Or.inl ⟨jb, hmem, JobChange.same jb⟩
  | progressUpdate id0 p j0 hfind hrun =>
    have hjb2 : jb ∈ updateJob s.jobs id0 (fun x => { x with progress := p }) := hjb
    rcases mem_update_cases s.jobs id0 _ j0 hnd hfind jb hjb2 with he | hmem
    · subst he
      exact Or.inl ⟨j0, List.mem_of_find?_eq_some hfind,
        JobChange.progressed j0 p hrun⟩
    · exact Or.inl ⟨jb, hmem, JobChange.same jb⟩

theorem step_map_id {s s' : ManagerState} (hstep : Step s s') :
    s'.jobs.map Job.id = s.jobs.map Job.id ∨
    s'.jobs.map Job.id = s.jobs.map Job.id ++ [s.nextId] := by
  cases hstep with
  | create jt priority timeout => right; simp [createJob]
  | cancel cid =>
    left
    cases h0 : findJob s cid with
    | none => simp [cancelJob, h0]
    | some j0 =>
      by_cases hp : j0.status = JobStatus.pending
      · have hs2 : (cancelJob s cid).2.jobs = updateJob s.jobs cid
            (fun x => { x with status := .cancelled
                               completed_at := some s.clock }) := by
          simp [cancelJob, h0, hp]
        rw [hs2]
        exact map_id_updateJob s.jobs cid _ (fun x => rfl)
      · simp [cancelJob, h0, hp]
  | poll =>
    left
    cases hq : s.queue with
    | nil => simp [workerPoll, hq]
    | cons t rest =>
      obtain ⟨p, tid⟩ := t
      cases h0 : findJob s tid with
      | none => simp [workerPoll, hq, h0]
      | some j0 =>
        by_cases hp : j0.status = JobStatus.pending
        · have hs2 : (workerPoll s).jobs = updateJob s.jobs tid
              (fun x => markRunningJob x s.clock) := by
            simp [workerPoll, hq, h0, hp]
          rw [hs2]
          exact map_id_updateJob s.jobs tid _ (fun x => rfl)
        · simp [workerPoll, hq, h0, hp]
  | succeed id0 res j0 hfind hrun =>
    left
    exact map_id_updateJob s.jobs id0 _ (fun x => rfl)
  | fail id0 err j0 hfind hrun =>
    left
    have hs2 : (failStep s id0 err).jobs = updateJob s.jobs id0
        (fun x => failJobFields x s.clock err) := by
      simp [failStep, hfind]
    rw [hs2]
    exact map_id_updateJob s.jobs id0 _ (fun x => failJobFields_id x s.clock err)
  | progressUpdate id0 p j0 hfind hrun =>
    left
    exact map_id_updateJob s.jobs id0 _ (fun x => rfl)

end JobSys

namespace JobSys

theorem jobChange_timesOK {clock clock2 : Nat} {ja jb : Job} (hcl : clock ≤ clock2)
    (h : JobChange clock ja jb) (hta : jobTimesOK clock ja) (hsa : jobStatusOK ja) :
    jobTimesOK clock2 jb := by
  obtain ⟨h1, h2, h3⟩ := hta
  cases h with
  | same =>
    exact ⟨h1.trans hcl, fun t ht => ⟨(h2 t ht).1, (h2 t ht).2.trans hcl⟩,
      fun t ht => ⟨(h3 t ht).1, (h3 t ht).2.1.trans hcl, (h3 t ht).2.2⟩⟩
  | cancelled hpend =>
    refine ⟨h1.trans hcl, ?_, ?_⟩
    · intro t ht
      have ht2 : ja.started_at = some t := ht
      exact ⟨(h2 t ht2).1, (h2 t ht2).2.trans hcl⟩
    · intro t ht
      have ht2 : some clock = some t := ht
      obtain rfl : t = clock := (Option.some_inj.mp ht2).symm
      exact ⟨h1, hcl, fun u hu => (h2 u hu).2⟩
  | started hpend =>
    refine ⟨h1.trans hcl, ?_, ?_⟩
    · intro t ht
      have ht2 : some clock = some t := ht
      obtain rfl : t = clock := (Option.some_inj.mp ht2).symm
      exact ⟨h1, hcl⟩
    · intro t ht
      have ht2 : ja.completed_at = some t := ht
      rw [(hsa.1 hpend).2] at ht2
      exact Option.noConfusion ht2
  | completed res hrun =>
    refine ⟨h1.trans hcl, ?_, ?_⟩
    · intro t ht
      have ht2 : ja.started_at = some t := ht
      exact ⟨(h2 t ht2).1, (h2 t ht2).2.trans hcl⟩
    · intro t ht
      have ht2 : some clock = some t := ht
      obtain rfl : t = clock := (Option.some_inj.mp ht2).symm
      exact ⟨h1, hcl, fun u hu => (h2 u hu).2⟩
  | failed err hrun =>
    by_cases hr : ja.retry_count < ja.max_retries
    · have hj := failJobFields_spec ja clock err
      rw [if_pos hr] at hj
      rw [hj]
      exact ⟨h1.trans hcl, fun t ht => Option.noConfusion ht,
        fun t ht => Option.noConfusion ht⟩
    · have hj := failJobFields_spec ja clock err
      rw [if_neg hr] at hj
      rw [hj]
      refine ⟨h1.trans hcl, ?_, ?_⟩
      · intro t ht
        have ht2 : ja.started_at = some t := ht
        exact ⟨(h2 t ht2).1, (h2 t ht2).2.trans hcl⟩
      · intro t ht
        have ht2 : some clock = some t := ht
        obtain rfl : t = clock := (Option.some_inj.mp ht2).symm
        exact ⟨h1, hcl, fun u hu => (h2 u hu).2⟩
  | progressed p hrun =>
    exact ⟨h1.trans hcl, fun t ht => ⟨(h2 t ht).1, (h2 t ht).2.trans hcl⟩,
      fun t ht => ⟨(h3 t ht).1, (h3 t ht).2.1.trans hcl, (h3 t ht).2.2⟩⟩

theorem jobChange_statusOK {clock : Nat} {ja jb : Job} (h : JobChange clock ja jb)
    (hsa : jobStatusOK ja) : jobStatusOK jb := by
  cases h with
  | same => exact hsa
  | cancelled hpend =>
    exact ⟨fun hp => JobStatus.noConfusion hp, fun hp => JobStatus.noConfusion hp⟩
  | started hpend =>
    refine ⟨fun hp => JobStatus.noConfusion hp, fun _ => ?_⟩
    exact (hsa.1 hpend).2
  | completed res hrun =>
    exact ⟨fun hp => JobStatus.noConfusion hp, fun hp => JobStatus.noConfusion hp⟩
  | failed err hrun =>
    by_cases hr : ja.retry_count < ja.max_retries
    · have hj := failJobFields_spec ja clock err
      rw [if_pos hr] at hj
      rw [hj]
      exact ⟨fun _ => ⟨rfl, rfl⟩, fun hp => JobStatus.noConfusion hp⟩
    · have hj := failJobFields_spec ja clock err
      rw [if_neg hr] at hj
      rw [hj]
      exact ⟨fun hp => JobStatus.noConfusion hp, fun hp => JobStatus.noConfusion hp⟩
  | progressed p hrun =>
    refine ⟨fun hp => ?_, fun _ => hsa.2 hrun⟩
    have hp2 : ja.status = .pending := hp
    rw [hrun] at hp2
    exact JobStatus.noConfusion hp2

theorem inv_init : Inv initState := by
  constructor
  · intro j hj
    exact absurd hj (List.not_mem_nil j)
  · exact List.nodup_nil

theorem inv_step {s s' : ManagerState} (hinv : Inv s) (hstep : Step s s') :
    Inv s' := by
  obtain ⟨hjobs, hnd⟩ := hinv
  constructor
  · intro jb hjb
    rcases step_mem_cases hnd hstep jb hjb with ⟨ja, hja, hch⟩ | hnew
    · obtain ⟨hid, hta, hsa⟩ := hjobs ja hja
      refine ⟨?_, ?_, ?_⟩
      · rw [jobChange_id hch]
        exact hid.trans_le (step_nextId hstep)
      · exact jobChange_timesOK (step_clock hstep) hch hta hsa
      · exact jobChange_statusOK hch hsa
    · obtain ⟨hcr, hst, hsn, hcn, hid, hnx⟩ := hnew
      refine ⟨?_, ?_, ?_⟩
      · rw [hid, hnx]
        omega
      · refine ⟨hcr ▸ step_clock hstep, fun t ht => ?_, fun t ht => ?_⟩
        · rw [hsn] at ht
          exact Option.noConfusion ht
        · rw [hcn] at ht
          exact Option.noConfusion ht
      · exact ⟨fun _ => ⟨hsn, hcn⟩, fun _ => hcn⟩
  · rcases step_map_id hstep with he | he
    · rw [he]
      exact hnd
    · rw [he]
      apply List.Nodup.append hnd (List.nodup_singleton _)
      intro a ha hb
      rw [List.mem_singleton] at hb
      subst hb
      obtain ⟨x, hx, hxe⟩ := List.mem_map.mp ha
      have hlt := (hjobs x hx).1
      omega

theorem reachable_inv (s : ManagerState) (h : Reachable s) : Inv s := by
  induction h with
  | refl => exact inv_init
  | tail hab hbc ih => exact inv_step ih hbc

end JobSys

namespace JobSys

/-- C5 (counterexample): `started_at` is not assigned exactly once over a
job lifetime.  In the concrete trace create → dequeue → fail (retried) →
dequeue, the job has `started_at = some 1` after the first dequeue, the
retry reset clears it to `none`, and the second dequeue re-assigns
`started_at = some 3`, a different value.  (`completed_at` is likewise set
and cleared inside the failure epilogue.) -/
theorem started_at_reassigned_counterexample :
    Step initState c5s1 ∧ Step c5s1 c5s2 ∧ Step c5s2 c5s3 ∧ Step c5s3 c5s4 ∧
    (findJob c5s2 0).map Job.started_at = some (some 1) ∧
    (findJob c5s3 0).map Job.started_at = some none ∧
    (findJob c5s4 0).map Job.started_at = some (some 3) ∧
    (some 1 : Option Nat) ≠ some 3 :=
  ⟨Step.create initState JobType.food_search 1 300, Step.poll c5s1,
   Step.fail c5s2 0 ("boom") jc5 (by decide) (by decide), Step.poll c5s3,
   by decide, by decide, by decide, by decide⟩

/-- C5 (amended): `created_at` is assigned once and never changes;
`started_at` and `completed_at` are assigned at most once per execution
attempt — across any single step they change only from unset to set or
from set to unset (the retry reset), never from one value directly to
another — and whenever two of the three timestamps are present they
satisfy `created_at ≤ started_at ≤ completed_at`. -/
theorem timestamps_per_attempt_and_ordered :
    (∀ (s s' : ManagerState), Inv s → Step s s' → ∀ (id : Nat) (ja jb : Job),
      findJob s id = some ja → findJob s' id = some jb →
      jb.created_at = ja.created_at ∧
      (jb.started_at ≠ ja.started_at →
        ja.started_at = none ∨ jb.started_at = none) ∧
      (jb.completed_at ≠ ja.completed_at →
        ja.completed_at = none ∨ jb.completed_at = none)) ∧
    (∀ (s : ManagerState), Reachable s → ∀ j ∈ s.jobs,
      (∀ t, j.started_at = some t → j.created_at ≤ t) ∧
      (∀ t, j.completed_at = some t → j.created_at ≤ t ∧
        ∀ u, j.started_at = some u → u ≤ t)) := by
  constructor
  · intro s s' hinv hstep id ja jb ha hb
    have hmem : ja ∈ s.jobs := List.mem_of_find?_eq_some ha
    have hsa : jobStatusOK ja := (hinv.1 ja hmem).2.2
    obtain ⟨jc, hc, hch⟩ := step_find_cases hstep id ja ha
    rw [hb] at hc
    obtain rfl : jb = jc := Option.some_inj.mp hc
    refine ⟨jobChange_created_at hch, ?_, ?_⟩
    · cases hch with
      | same => intro hne; exact absurd rfl hne
      | cancelled hpend => intro hne; exact absurd rfl hne
      | started hpend => intro _; exact Or.inl (hsa.1 hpend).1
      | completed res hrun => intro hne; exact absurd rfl hne
      | failed err hrun =>
        by_cases hr : ja.retry_count < ja.max_retries
        · have hj := failJobFields_spec ja s.clock err
          rw [if_pos hr] at hj
          rw [hj]
          intro _
          exact Or.inr rfl
        · have hj := failJobFields_spec ja s.clock err
          rw [if_neg hr] at hj
          rw [hj]
          intro hne
          exact absurd rfl hne
      | progressed p hrun => intro hne; exact absurd rfl hne
    · cases hch with
      | same => intro hne; exact absurd rfl hne
      | cancelled hpend => intro _; exact Or.inl (hsa.1 hpend).2
      | started hpend => intro hne; exact absurd rfl hne
      | completed res hrun => intro _; exact Or.inl (hsa.2 hrun)
      | failed err hrun =>
        by_cases hr : ja.retry_count < ja.max_retries
        · have hj := failJobFields_spec ja s.clock err
          rw [if_pos hr] at hj
          rw [hj]
          intro _
          exact Or.inr rfl
        · intro _
          exact Or.inl (hsa.2 hrun)
      | progressed p hrun => intro hne; exact absurd rfl hne
  · intro s hreach j hj
    have hta : jobTimesOK s.clock j := ((reachable_inv s hreach).1 j hj).2.1
    exact ⟨fun t ht => (hta.2.1 t ht).1,
      fun t ht => ⟨(hta.2.2 t ht).1, (hta.2.2 t ht).2.2⟩⟩

/-- Witness for C5 (amended) at the concrete retry trace: the failing step
from `c5s2` to `c5s3` clears `started_at` (set-to-unset), never rewriting
it in place, and the ordering facts hold for the RUNNING job of `c5s2`. -/
theorem timestamps_per_attempt_and_ordered_witness :
    Reachable c5s2 ∧
    findJob c5s2 0 = some jc5 ∧ findJob c5s3 0 = some jc5f ∧
    (jc5f.created_at = jc5.created_at ∧
     (jc5f.started_at ≠ jc5.started_at →
       jc5.started_at = none ∨ jc5f.started_at = none) ∧
     (jc5f.completed_at ≠ jc5.completed_at →
       jc5.completed_at = none ∨ jc5f.completed_at = none)) ∧
    (∀ t, jc5.started_at = some t → jc5.created_at ≤ t) := by
  have hreach : Reachable c5s2 :=
    Relation.ReflTransGen.tail
      (Relation.ReflTransGen.single (Step.create initState JobType.food_search 1 300))
      (Step.poll c5s1)
  refine ⟨hreach, by decide, by decide, ?_, ?_⟩
  · exact timestamps_per_attempt_and_ordered.1 c5s2 c5s3
      (reachable_inv c5s2 hreach)
      (Step.fail c5s2 0 ("boom") jc5 (by decide) (by decide)) 0 jc5 jc5f
      (by decide) (by decide)
  · intro t ht
    exact (timestamps_per_attempt_and_ordered.2 c5s2 hreach jc5 (by decide)).1 t ht

end JobSys
